import Mathlib

/-!
Shallow embedding of the `lib/auth` package of `hsbc-assess-4`, an in-memory
authentication and authorization server, together with theorems checking the
natural-language specification against the code.

Go maps are modelled by association lists; Go pointers shared between the
id-keyed map and the name-keyed map are modelled by storing the numeric id in
the name index and dereferencing through the id-keyed map.  Machine integers
(`int32` for role ids and the configured TTL, `int64` for user ids) are
modelled as `Int`, with two's-complement wraparound applied explicitly where
the source increments a counter.  Wall-clock instants are `Int` seconds;
elapsed time since server start is a `Nat` parameter (whole seconds).
-/

namespace HsbcAuth

/-- Association-list lookup, modelling Go map indexing `m[k]`. -/
def lookupA {α β : Type} [DecidableEq α] : List (α × β) → α → Option β
  | [], _ => none
  | (k, v) :: rest, key => if key = k then some v else lookupA rest key

/-- Association-list insertion, modelling Go map assignment `m[k] = v`:
replaces the binding if the key is present, otherwise adds it. -/
def insertA {α β : Type} [DecidableEq α] : List (α × β) → α → β → List (α × β)
  | [], key, v => [(key, v)]
  | (k, w) :: rest, key, v =>
    if key = k then (k, v) :: rest else (k, w) :: insertA rest key v

/-- Association-list removal, modelling Go `delete(m, k)`: every binding of
the key is dropped (Go maps hold a key at most once, so on the lists this
embedding builds it removes at most one binding). -/
def eraseA {α β : Type} [DecidableEq α] (m : List (α × β)) (key : α) :
    List (α × β) :=
  m.filter (fun p => p.1 ≠ key)

/-- `TokenValue` is a string (`token.go`). -/
abbrev TokenValue := String

/-- `Role` from `role.go`: numeric id and display name. -/
structure Role where
  id : Int
  name : String
deriving DecidableEq, Repr

/-- `User` from `user.go`.  The `Roles map[RoleID]*Role` field is modelled by
the set of its keys; `none` models the Go nil map (the zero value of a map
field that was never initialised), which is distinct from an empty map:
reading it yields absence, but writing to it faults. -/
structure User where
  id : Int
  name : String
  secret : String
  roles : Option (List Int)
deriving DecidableEq, Repr

/-- `Token` from `token.go`: opaque value, owning user id, absolute expiry
instant (seconds). -/
structure Token where
  value : TokenValue
  user : Int
  expires : Int
deriving DecidableEq, Repr

/-- `TokenQueue` from `token.go`: one epoch bucket, its epoch number and the
tokens queued during that window. -/
structure TokenQueue where
  serverEpoch : Int
  tokens : List Token
deriving DecidableEq, Repr

/-- The package's sentinel error values (`errors.New` variables spread over
`auth.go`, `user.go`, `role.go`, `token.go`). -/
inductive AuthErr where
  | invalidConfig
  | internal
  | weakPassword
  | userExists
  | userNotExist
  | roleExists
  | roleNotExist
  | invalidAuth
  | invalidToken
deriving DecidableEq, Repr

/-- `InMemoryServerConfig` from `auth.go` (`TokenExpireSec int32`). -/
structure InMemoryServerConfig where
  tokenExpireSec : Int
deriving DecidableEq, Repr

/-- `InMemoryServer` from `auth.go`.  The `uname` and `rname` indices store
the numeric id of the entity: in Go they store a pointer to the very same
object held by the id-keyed map, and the model dereferences through the
id-keyed map instead.  The `startedOn time.Time` field is not part of the
model state: every operation that reads the clock takes the elapsed whole
seconds since `startedOn` as an explicit parameter (note that the Go
constructor never assigns `startedOn`, leaving it at the zero value). -/
structure InMemoryServer where
  cfg : InMemoryServerConfig
  users : List (Int × User)
  uname : List (String × Int)
  roles : List (Int × Role)
  rname : List (String × Int)
  tokens : List (TokenValue × Token)
  nextUser : Int
  nextRole : Int
  tokenQ : List TokenQueue
deriving DecidableEq, Repr

/-- Two's-complement wraparound of a `w`-bit signed machine integer, applied
where the source increments an `int32`/`int64` counter (Go signed integer
overflow wraps). -/
def wrapInt (w : Nat) (n : Int) : Int :=
  (n + 2 ^ (w - 1)) % 2 ^ w - 2 ^ (w - 1)

/-- `getPasswordHash` from `user.go` computes the SHA-256 digest of the
password.  The code only ever compares digests for equality, so the digest
function is modelled as the identity on strings (a deterministic stand-in for
the external `crypto/sha256` primitive; its internals are outside this
repository). -/
def getPasswordHash (pass : String) : String := pass

/-- `NewInMemoryServer` from `auth.go`: rejects a nil config or a TTL below
60 seconds with `ErrInvalidConfig`, otherwise returns a fresh server with
empty maps and both id counters at 1. -/
def newInMemoryServer (config : Option InMemoryServerConfig) :
    Except AuthErr InMemoryServer :=
  match config with
  | none => .error .invalidConfig
  | some cfg =>
    if cfg.tokenExpireSec < 60 then .error .invalidConfig
    else .ok
      { cfg := cfg
        users := []
        uname := []
        roles := []
        rname := []
        tokens := []
        nextUser := 1
        nextRole := 1
        tokenQ := [] }

/-- `CreateUser` from `auth.go`: fails with `ErrUserExists` if the name is
taken; otherwise stores the new user in both indices and bumps `nextUser`.
The Go struct literal omits the `Roles` field, so the new user's role map is
the nil map (`none`). -/
def createUser (s : InMemoryServer) (name password : String) :
    Except AuthErr Int × InMemoryServer :=
  match lookupA s.uname name with
  | some _ => (.error .userExists, s)
  | none =>
    let newUser : User :=
      { id := s.nextUser
        name := name
        secret := getPasswordHash password
        roles := none }
    (.ok newUser.id,
      { s with
          users := insertA s.users s.nextUser newUser
          uname := insertA s.uname name newUser.id
          nextUser := wrapInt 64 (s.nextUser + 1) })

/-- `DeleteUser` from `auth.go`: fails with `ErrUserNotExist` if the id is
absent; otherwise removes the user from both indices. -/
def deleteUser (s : InMemoryServer) (user : Int) :
    Except AuthErr Unit × InMemoryServer :=
  match lookupA s.users user with
  | none => (.error .userNotExist, s)
  | some userObj =>
    (.ok (),
      { s with
          users := eraseA s.users user
          uname := eraseA s.uname userObj.name })

/-- `CreateRole` from `auth.go`: fails with `ErrRoleExists` if the name is
taken; otherwise stores the new role in both indices and bumps `nextRole`
(an `int32` counter). -/
def createRole (s : InMemoryServer) (name : String) :
    Except AuthErr Int × InMemoryServer :=
  match lookupA s.rname name with
  | some _ => (.error .roleExists, s)
  | none =>
    let newRole : Role := { id := s.nextRole, name := name }
    (.ok newRole.id,
      { s with
          roles := insertA s.roles s.nextRole newRole
          rname := insertA s.rname name newRole.id
          nextRole := wrapInt 32 (s.nextRole + 1) })

/-- `DeleteRole` from `auth.go`: fails with `ErrRoleNotExist` if the id is
absent; otherwise removes the role from both indices.  It does not touch any
user's role set. -/
def deleteRole (s : InMemoryServer) (role : Int) :
    Except AuthErr Unit × InMemoryServer :=
  match lookupA s.roles role with
  | none => (.error .roleNotExist, s)
  | some roleObj =>
    (.ok (),
      { s with
          roles := eraseA s.roles role
          rname := eraseA s.rname roleObj.name })

/-- `AddRoleToUser` from `auth.go`: `NotFound` errors for a missing user or
role, otherwise executes `userObj.Roles[roleObj.ID] = roleObj`.  When the
user's role map is the nil map — which is how `CreateUser` leaves it — that
assignment is a Go runtime fault ("assignment to entry in nil map"),
modelled by the outer `none`. -/
def addRoleToUser (s : InMemoryServer) (user : Int) (role : Int) :
    Option (Except AuthErr Unit × InMemoryServer) :=
  match lookupA s.users user with
  | none => some (.error .userNotExist, s)
  | some userObj =>
    match lookupA s.roles role with
    | none => some (.error .roleNotExist, s)
    | some roleObj =>
      match userObj.roles with
      | none => none
      | some rs =>
        let rs' := if roleObj.id ∈ rs then rs else rs ++ [roleObj.id]
        some (.ok (),
          { s with
              users := insertA s.users user { userObj with roles := some rs' } })

/-- `currentEpochInHour` from `auth.go`:
`int32(elapsed.Seconds()+1) / 3600`, where `elapsed` is the time since
`s.startedOn`.  For a nonnegative elapsed time of `elapsedSec` whole seconds
(plus a fraction below one second), the `int32` float truncation yields
`elapsedSec + 1`, and the `int32` division truncates toward zero. -/
def currentEpochInHour (elapsedSec : Nat) : Int :=
  (((elapsedSec + 1) / 3600 : Nat) : Int)

/-- One bucket eviction inside `pruneTokens`: delete every token referenced
by the bucket from the lookup table. -/
def evictTokens (tokens : List (TokenValue × Token)) (bucket : List Token) :
    List (TokenValue × Token) :=
  bucket.foldl (fun m t => eraseA m t.value) tokens

/-- The loop of `pruneTokens`: walk the buckets oldest-first, break at the
first bucket with `ep - bucket.ServerEpoch <= expire`, evicting the tokens of
every bucket passed over; return the surviving buckets and the updated
lookup table. -/
def pruneLoop (ep expire : Int) :
    List TokenQueue → List (TokenValue × Token) →
    List TokenQueue × List (TokenValue × Token)
  | [], tokens => ([], tokens)
  | b :: rest, tokens =>
    if ep - b.serverEpoch ≤ expire then (b :: rest, tokens)
    else pruneLoop ep expire rest (evictTokens tokens b.tokens)

/-- `pruneTokens` from `auth.go`: `expire = s.cfg.TokenExpireSec/3600 + 1`
(`int32` division truncating toward zero), then the prefix trim of the
bucket queue. -/
def pruneTokens (s : InMemoryServer) (elapsedSec : Nat) : InMemoryServer :=
  let ep := currentEpochInHour elapsedSec
  let expire := Int.tdiv s.cfg.tokenExpireSec 3600 + 1
  let r := pruneLoop ep expire s.tokenQ s.tokens
  { s with tokenQ := r.1, tokens := r.2 }

/-- Replace the last element of a list, modelling
`s.tokenQ[len(s.tokenQ)-1] = ...`. -/
def modifyLast {α : Type} (f : α → α) : List α → List α
  | [] => []
  | [a] => [f a]
  | a :: b :: rest => a :: modifyLast f (b :: rest)

/-- `addToTokenQueue` from `auth.go`: if the queue is empty or its newest
bucket is older than the current epoch, append one fresh bucket for the
current epoch and run `pruneTokens`; then append the token to the newest
bucket. -/
def addToTokenQueue (s : InMemoryServer) (t : Token) (elapsedSec : Nat) :
    InMemoryServer :=
  let ep := currentEpochInHour elapsedSec
  let s1 :=
    match s.tokenQ.getLast? with
    | none =>
      pruneTokens { s with tokenQ := s.tokenQ ++ [({ serverEpoch := ep, tokens := [] } : TokenQueue)] }
        elapsedSec
    | some last =>
      if last.serverEpoch < ep then
        pruneTokens { s with tokenQ := s.tokenQ ++ [({ serverEpoch := ep, tokens := [] } : TokenQueue)] }
          elapsedSec
      else s
  { s1 with
      tokenQ := modifyLast (fun b => { b with tokens := b.tokens ++ [t] }) s1.tokenQ }

/-- `newToken` from `auth.go`: draw 8 random bytes and base64-encode them —
modelled by the `entropy` parameter, `none` standing for a failing random
source — set `Expires = now + TokenExpireSec`, and register the token with
the epoch queue. -/
def newToken (s : InMemoryServer) (u : User) (entropy : Option TokenValue)
    (now : Int) (elapsedSec : Nat) : Option (Token × InMemoryServer) :=
  match entropy with
  | none => none
  | some v =>
    let t : Token := { value := v, user := u.id, expires := now + s.cfg.tokenExpireSec }
    some (t, addToTokenQueue s t elapsedSec)

/-- `Authenticate` from `auth.go`: unknown username or digest mismatch both
return `ErrInvalidAuth`; a failing random source returns `ErrInternal`;
otherwise the minted token is stored in the lookup table and its value
returned.  (The name index holds a pointer to the user object; the model
dereferences it through the id-keyed map.) -/
def authenticate (s : InMemoryServer) (username password : String)
    (entropy : Option TokenValue) (now : Int) (elapsedSec : Nat) :
    Except AuthErr TokenValue × InMemoryServer :=
  match lookupA s.uname username with
  | none => (.error .invalidAuth, s)
  | some uid =>
    match lookupA s.users uid with
    | none => (.error .invalidAuth, s)
    | some userObj =>
      if getPasswordHash password ≠ userObj.secret then (.error .invalidAuth, s)
      else
        match newToken s userObj entropy now elapsedSec with
        | none => (.error .internal, s)
        | some (t, s1) =>
          (.ok t.value, { s1 with tokens := insertA s1.tokens t.value t })

/-- `Invalidate` from `auth.go`: `delete(s.tokens, token)` and nothing
else. -/
def invalidate (s : InMemoryServer) (token : TokenValue) : InMemoryServer :=
  { s with tokens := eraseA s.tokens token }

/-- `verifyToken` from `auth.go`: unknown value, expired value (deleted as a
side effect) and deleted bound user (token likewise deleted) all yield
`ErrInvalidToken`; otherwise the bound user is returned.  `now.After(exp)`
is the strict comparison `exp < now`. -/
def verifyToken (s : InMemoryServer) (t : TokenValue) (now : Int) :
    Except AuthErr User × InMemoryServer :=
  match lookupA s.tokens t with
  | none => (.error .invalidToken, s)
  | some tokenObj =>
    if tokenObj.expires < now then
      (.error .invalidToken, ({ s with tokens := eraseA s.tokens t } : InMemoryServer))
    else
      match lookupA s.users tokenObj.user with
      | none => (.error .invalidToken, ({ s with tokens := eraseA s.tokens t } : InMemoryServer))
      | some userObj => (.ok userObj, s)

/-- Membership test `_, belongs := userObj.Roles[role]` of `CheckRole`;
reading a nil map yields absence. -/
def roleMember (u : User) (role : Int) : Bool :=
  match u.roles with
  | none => false
  | some rs => decide (role ∈ rs)

/-- `CheckRole` from `auth.go`: verify the token, then test membership of
the role id in the user's role map.  The role id itself is never looked up
in the role store. -/
def checkRole (s : InMemoryServer) (t : TokenValue) (role : Int) (now : Int) :
    Except AuthErr Bool × InMemoryServer :=
  match verifyToken s t now with
  | (.error e, s1) => (.error e, s1)
  | (.ok userObj, s1) => (.ok (roleMember userObj role), s1)

/-- The epoch formula the specification states: floor(seconds since server
start / window width) + 1, so the first window is epoch 1. -/
def specEpochNumber (elapsedSec : Nat) : Int :=
  ((elapsedSec / 3600 : Nat) : Int) + 1

/-- The specification's expirability threshold for an epoch bucket:
`ceil(TTL / windowWidth)` with the fixed 3600-second window. -/
def specCeilThreshold (ttlSec : Nat) : Nat := (ttlSec + 3599) / 3600

/-- The specification's expirability condition for an epoch bucket:
`currentEpoch - bucket.epoch > ceil(TTL / windowWidth)`. -/
def specExpirable (ep bucketEpoch : Int) (ttlSec : Nat) : Prop :=
  ep - bucketEpoch > (specCeilThreshold ttlSec : Int)

instance (ep bucketEpoch : Int) (ttlSec : Nat) :
    Decidable (specExpirable ep bucketEpoch ttlSec) :=
  inferInstanceAs (Decidable (_ > _))

/-- A freshly constructed server with the minimum legal TTL of 60 seconds. -/
def srv60 : InMemoryServer :=
  { cfg := { tokenExpireSec := 60 }
    users := []
    uname := []
    roles := []
    rname := []
    tokens := []
    nextUser := 1
    nextRole := 1
    tokenQ := [] }

/-! ### Association-list lemmas -/

instance {ε α : Type} [DecidableEq ε] [DecidableEq α] : DecidableEq (Except ε α) :=
  fun a b =>
    match a, b with
    | .error e, .error f =>
      if h : e = f then .isTrue (by rw [h])
      else .isFalse (fun hh => h (by cases hh; rfl))
    | .error _, .ok _ => .isFalse (fun hh => Except.noConfusion hh)
    | .ok _, .error _ => .isFalse (fun hh => Except.noConfusion hh)
    | .ok x, .ok y =>
      if h : x = y then .isTrue (by rw [h])
      else .isFalse (fun hh => h (by cases hh; rfl))

theorem lookupA_insertA {α β : Type} [DecidableEq α] (m : List (α × β))
    (k k' : α) (v : β) :
    lookupA (insertA m k v) k' = if k' = k then some v else lookupA m k' := by
  induction m with
  | nil => by_cases h : k' = k <;> simp [insertA, lookupA, h]
  | cons p rest ih =>
    obtain ⟨a, b⟩ := p
    by_cases hka : k = a
    · subst hka
      by_cases h : k' = k <;> simp [insertA, lookupA, h]
    · by_cases h'a : k' = a
      · subst h'a
        have h'k : ¬ k' = k := fun h => hka h.symm
        simp [insertA, lookupA, hka, h'k]
      · simp [insertA, lookupA, hka, h'a, ih]

theorem lookupA_eraseA {α β : Type} [DecidableEq α] (m : List (α × β))
    (k k' : α) :
    lookupA (eraseA m k) k' = if k' = k then none else lookupA m k' := by
  induction m with
  | nil => by_cases h : k' = k <;> simp [eraseA, lookupA, h]
  | cons p rest ih =>
    obtain ⟨a, b⟩ := p
    by_cases hak : a = k
    · subst hak
      have h : ∀ r : List (α × β), eraseA ((a, b) :: r) a = eraseA r a := by
        intro r; simp [eraseA, List.filter_cons]
      by_cases h' : k' = a
      · subst h'
        simpa [h, lookupA] using ih
      · simp [h, ih, lookupA, h']
    · have h : ∀ r : List (α × β), eraseA ((a, b) :: r) k = (a, b) :: eraseA r k := by
        intro r; simp [eraseA, List.filter_cons, hak]
      by_cases h' : k' = a
      · subst h'
        simp [h, lookupA, hak]
      · simp [h, lookupA, h', ih]

theorem eraseA_of_lookupA_none {α β : Type} [DecidableEq α]
    (m : List (α × β)) (k : α) (h : lookupA m k = none) : eraseA m k = m := by
  induction m with
  | nil => rfl
  | cons p rest ih =>
    obtain ⟨a, b⟩ := p
    by_cases hka : k = a
    · simp [lookupA, hka] at h
    · simp only [lookupA, if_neg hka] at h
      have hak : ¬ a = k := fun hh => hka hh.symm
      simp [eraseA, List.filter_cons, hak] at ih ⊢
      exact ih h

theorem eraseA_eraseA {α β : Type} [DecidableEq α] (m : List (α × β)) (k : α) :
    eraseA (eraseA m k) k = eraseA m k :=
  eraseA_of_lookupA_none _ _ (by simp [lookupA_eraseA])

/-! ### Claims -/

/-- C2 (code bug): at the instant of server start (elapsed time 0) the code's
epoch `int32(elapsed.Seconds()+1) / 3600` evaluates to 0, while the
specified epoch number, floor(elapsed / windowWidth) + 1, is 1 there — the
formula the code uses differs from the one the spec, the function's own
comment ("starting from 1") and the test `TestAuthenticate` (which asserts
`ServerEpoch == 1` right after startup) all state. -/
theorem c2_epoch_formula_code_bug :
    currentEpochInHour 0 = 0 ∧ specEpochNumber 0 = 1 ∧
    currentEpochInHour 0 ≠ specEpochNumber 0 := by decide

/-- C4 (code bug): `CreateUser` with an empty password succeeds — it checks
only name availability, never the password — returning id 1 and inserting
the user, although the spec and the repository's own test `TestCreateUser`
require the `ErrWeakPassword` failure with the state left unchanged. -/
theorem c4_empty_password_code_bug :
    newInMemoryServer (some { tokenExpireSec := 60 }) = .ok srv60 ∧
    (createUser srv60 "dummy" "").1 = .ok 1 ∧
    (createUser srv60 "dummy" "").1 ≠ .error .weakPassword ∧
    lookupA (createUser srv60 "dummy" "").2.uname "dummy" = some 1 := by
  decide

/-- The server state reached by `CreateUser("phoebe", "weakpswd")` followed
by `CreateRole("scanner")` on a fresh server. -/
def c5srv : InMemoryServer :=
  (createRole (createUser srv60 "phoebe" "weakpswd").2 "scanner").2

/-- C5 (code bug): after a user and a role are created, `AddRoleToUser` on
them does not succeed — it faults.  `CreateUser` never initialises the
user's `Roles` map (the Go struct literal omits the field), so the
assignment `userObj.Roles[roleObj.ID] = roleObj` is an assignment to an
entry in a nil map, a Go runtime panic (modelled by `none`); the repository's
own tests `TestCreateUser` (expecting an initialised empty role map) and
`TestAddRoleToUser` (expecting success) say otherwise. -/
theorem c5_nil_role_map_code_bug :
    (createUser srv60 "phoebe" "weakpswd").1 = .ok 1 ∧
    (createRole (createUser srv60 "phoebe" "weakpswd").2 "scanner").1 = .ok 1 ∧
    lookupA c5srv.users 1 ≠ none ∧
    lookupA c5srv.roles 1 ≠ none ∧
    addRoleToUser c5srv 1 1 = none := by decide

/-- C7 (confirmed): `Invalidate` removes the value from the token lookup
table (leaving every other key's binding alone), never errs — on an absent
value the state is returned unchanged — is idempotent, and leaves the epoch
buckets and every other component of the server untouched. -/
theorem c7_invalidate_removes_only_lookup (s : InMemoryServer) (tv : TokenValue) :
    lookupA (invalidate s tv).tokens tv = none ∧
    (∀ v, v ≠ tv → lookupA (invalidate s tv).tokens v = lookupA s.tokens v) ∧
    (invalidate s tv).tokenQ = s.tokenQ ∧
    (invalidate s tv).users = s.users ∧
    (invalidate s tv).uname = s.uname ∧
    (invalidate s tv).roles = s.roles ∧
    (invalidate s tv).rname = s.rname ∧
    (invalidate s tv).cfg = s.cfg ∧
    invalidate (invalidate s tv) tv = invalidate s tv ∧
    (lookupA s.tokens tv = none → invalidate s tv = s) := by
  refine ⟨by simp [invalidate, lookupA_eraseA], ?_, rfl, rfl, rfl, rfl, rfl, rfl, ?_, ?_⟩
  · intro v hv
    simp [invalidate, lookupA_eraseA, hv]
  · simp [invalidate, eraseA_eraseA]
  · intro h
    simp [invalidate, eraseA_of_lookupA_none _ _ h]

/-- A server holding one live token `"tok"` for user 7, used to exercise the
C7 theorem at a concrete input. -/
def srvTok : InMemoryServer :=
  { cfg := { tokenExpireSec := 60 }
    users := [(7, { id := 7, name := "ann", secret := "pw", roles := some [] })]
    uname := [("ann", 7)]
    roles := []
    rname := []
    tokens := [("tok", { value := "tok", user := 7, expires := 100 })]
    nextUser := 8
    nextRole := 1
    tokenQ := [{ serverEpoch := 1,
                 tokens := [{ value := "tok", user := 7, expires := 100 }] }] }

/-- Witness for C7 at the concrete server `srvTok`: the unrelated key
`"other"` keeps its binding, and invalidating the absent value `"gone"` on
the fresh server is the identity. -/
theorem c7_invalidate_removes_only_lookup_witness :
    lookupA (invalidate srvTok "tok").tokens "other" = lookupA srvTok.tokens "other" ∧
    invalidate srv60 "gone" = srv60 :=
  ⟨(c7_invalidate_removes_only_lookup srvTok "tok").2.1 "other" (by decide),
   (c7_invalidate_removes_only_lookup srv60 "gone").2.2.2.2.2.2.2.2.2 (by decide)⟩

/-- C6 (confirmed): `Authenticate` returns the very same error value,
`ErrInvalidAuth`, both when the username is unknown and when the username is
known but the password digest does not match the stored secret — the two
failure causes are indistinguishable from the returned result (and the
server state is unchanged in both cases). -/
theorem c6_invalid_auth_indistinguishable (s : InMemoryServer)
    (username password : String) (entropy : Option TokenValue) (now : Int)
    (elapsedSec : Nat) :
    (lookupA s.uname username = none →
      authenticate s username password entropy now elapsedSec =
        (.error .invalidAuth, s)) ∧
    (∀ uid u, lookupA s.uname username = some uid →
      lookupA s.users uid = some u →
      getPasswordHash password ≠ u.secret →
      authenticate s username password entropy now elapsedSec =
        (.error .invalidAuth, s)) := by
  constructor
  · intro h
    simp [authenticate, h]
  · intro uid u h1 h2 h3
    simp [authenticate, h1, h2, h3]

/-- Witness for C6: on the concrete server `srvTok` (one user `"ann"` with
secret `"pw"`), an unknown username and a known username with a wrong
password both produce exactly `(ErrInvalidAuth, unchanged state)`. -/
theorem c6_invalid_auth_indistinguishable_witness :
    authenticate srvTok "bob" "pw" none 0 0 = (.error .invalidAuth, srvTok) ∧
    authenticate srvTok "ann" "wrong" none 0 0 = (.error .invalidAuth, srvTok) :=
  ⟨(c6_invalid_auth_indistinguishable srvTok "bob" "pw" none 0 0).1 (by decide),
   (c6_invalid_auth_indistinguishable srvTok "ann" "wrong" none 0 0).2 7
     { id := 7, name := "ann", secret := "pw", roles := some [] }
     (by decide) (by decide) (by decide)⟩

/-- Every exit of `verifyToken` is one of: failure with the token lookup
table unchanged, failure with the presented value deleted from it, or
success with the state unchanged — and the only error value is
`ErrInvalidToken`. -/
theorem verifyToken_cases (s : InMemoryServer) (t : TokenValue) (now : Int) :
    verifyToken s t now = (.error .invalidToken, s) ∨
    verifyToken s t now =
      (.error .invalidToken, { s with tokens := eraseA s.tokens t }) ∨
    ∃ u, verifyToken s t now = (.ok u, s) := by
  cases h : lookupA s.tokens t with
  | none => exact .inl (by simp [verifyToken, h])
  | some tok =>
    by_cases he : tok.expires < now
    · exact .inr (.inl (by simp [verifyToken, h, he]))
    · cases hu : lookupA s.users tok.user with
      | none => exact .inr (.inl (by simp [verifyToken, h, he, hu]))
      | some u => exact .inr (.inr ⟨u, by simp [verifyToken, h, he, hu]⟩)

/-- C3 (confirmed): `verifyToken` fails — always with `ErrInvalidToken` — in
exactly three cases: unknown value (state unchanged), value past its stored
expiry (the entry is deleted from the lookup table), or bound user no longer
present (the entry is likewise deleted); in every other case it succeeds and
returns the user bound to the token, with the state unchanged. -/
theorem c3_verify_token_exact_failure_cases (s : InMemoryServer)
    (t : TokenValue) (now : Int) :
    ((verifyToken s t now).1 = .error .invalidToken ↔
      lookupA s.tokens t = none ∨
        ∃ tok, lookupA s.tokens t = some tok ∧
          (tok.expires < now ∨ lookupA s.users tok.user = none)) ∧
    (lookupA s.tokens t = none →
      verifyToken s t now = (.error .invalidToken, s)) ∧
    (∀ tok, lookupA s.tokens t = some tok → tok.expires < now →
      verifyToken s t now =
        (.error .invalidToken, { s with tokens := eraseA s.tokens t })) ∧
    (∀ tok, lookupA s.tokens t = some tok → ¬ tok.expires < now →
      lookupA s.users tok.user = none →
      verifyToken s t now =
        (.error .invalidToken, { s with tokens := eraseA s.tokens t })) ∧
    (∀ tok u, lookupA s.tokens t = some tok → ¬ tok.expires < now →
      lookupA s.users tok.user = some u →
      verifyToken s t now = (.ok u, s)) := by
  refine ⟨?_, ?_, ?_, ?_, ?_⟩
  · cases h : lookupA s.tokens t with
    | none => simp [verifyToken, h]
    | some tok =>
      by_cases he : tok.expires < now
      · simp [verifyToken, h, he]
      · cases hu : lookupA s.users tok.user with
        | none => simp [verifyToken, h, he, hu]
        | some u => simp [verifyToken, h, he, hu]
  · intro h
    simp [verifyToken, h]
  · intro tok h he
    simp [verifyToken, h, he]
  · intro tok h he hu
    simp [verifyToken, h, he, hu]
  · intro tok u h he hu
    simp [verifyToken, h, he, hu]

/-- Witness for C3 at concrete inputs: on `srvTok` the live token `"tok"`
verifies to user 7 with the state unchanged, an unknown value fails with the
state unchanged, and at `now = 101` (past the stored expiry 100) the entry
is deleted as a side effect. -/
theorem c3_verify_token_exact_failure_cases_witness :
    verifyToken srvTok "tok" 0 =
      (.ok { id := 7, name := "ann", secret := "pw", roles := some [] }, srvTok) ∧
    verifyToken srvTok "gone" 0 = (.error .invalidToken, srvTok) ∧
    verifyToken srvTok "tok" 101 =
      (.error .invalidToken, { srvTok with tokens := eraseA srvTok.tokens "tok" }) :=
  ⟨(c3_verify_token_exact_failure_cases srvTok "tok" 0).2.2.2.2
     { value := "tok", user := 7, expires := 100 }
     { id := 7, name := "ann", secret := "pw", roles := some [] }
     (by decide) (by decide) (by decide),
   (c3_verify_token_exact_failure_cases srvTok "gone" 0).2.1 (by decide),
   (c3_verify_token_exact_failure_cases srvTok "tok" 101).2.2.1
     { value := "tok", user := 7, expires := 100 } (by decide) (by decide)⟩

/-- C10 (confirmed): `CheckRole` never returns the role `NotFound` error;
its result does not depend on the role store at all (the role argument is
never validated for existence); and whenever the token verifies to a user,
it returns, without error, exactly the membership bit of the role id in that
user's role set — `false` for every id the user does not hold, including ids
never created or already deleted. -/
theorem c10_check_role_never_validates_role (s : InMemoryServer)
    (t : TokenValue) (role : Int) (now : Int) :
    (checkRole s t role now).1 ≠ .error .roleNotExist ∧
    (∀ rl rn,
      (checkRole { s with roles := rl, rname := rn } t role now).1 =
        (checkRole s t role now).1) ∧
    (∀ u, roleMember u role = false ↔ ∀ rs, u.roles = some rs → role ∉ rs) ∧
    (∀ u s1, verifyToken s t now = (.ok u, s1) →
      checkRole s t role now = (.ok (roleMember u role), s1)) := by
  refine ⟨?_, ?_, ?_, ?_⟩
  · rcases verifyToken_cases s t now with h | h | ⟨u, h⟩ <;> simp [checkRole, h]
  · intro rl rn
    cases h : lookupA s.tokens t with
    | none => simp [checkRole, verifyToken, h]
    | some tok =>
      by_cases he : tok.expires < now
      · simp [checkRole, verifyToken, h, he]
      · cases hu : lookupA s.users tok.user with
        | none => simp [checkRole, verifyToken, h, he, hu]
        | some u => simp [checkRole, verifyToken, h, he, hu]
  · intro u
    cases hr : u.roles with
    | none => simp [roleMember, hr]
    | some rs => simp [roleMember, hr]
  · intro u s1 h
    simp [checkRole, h]

/-- Witness for C10 on `srvTok`: the token verifies to user 7, whose role
set is empty, so `CheckRole` with the never-created role id 101 returns
`ok false`, not a role `NotFound` error. -/
theorem c10_check_role_never_validates_role_witness :
    checkRole srvTok "tok" 101 0 = (.ok false, srvTok) :=
  (c10_check_role_never_validates_role srvTok "tok" 101 0).2.2.2
    { id := 7, name := "ann", secret := "pw", roles := some [] } srvTok (by decide)

/-- C8 (confirmed): deleting a role a user holds does not remove the
membership from the user: `DeleteRole` succeeds, and a subsequent
`CheckRole` with a valid token for that user and the deleted role's id still
returns `true`. -/
theorem c8_deleted_role_membership_persists (s : InMemoryServer)
    (rid : Int) (tv : TokenValue) (now : Int) (tok : Token) (u : User)
    (roleObj : Role)
    (hrole : lookupA s.roles rid = some roleObj)
    (htok : lookupA s.tokens tv = some tok)
    (hexp : ¬ tok.expires < now)
    (huser : lookupA s.users tok.user = some u)
    (hmem : roleMember u rid = true) :
    (deleteRole s rid).1 = .ok () ∧
    (checkRole (deleteRole s rid).2 tv rid now).1 = .ok true := by
  have hstate : (deleteRole s rid).2 =
      { s with roles := eraseA s.roles rid, rname := eraseA s.rname roleObj.name } := by
    simp [deleteRole, hrole]
  refine ⟨by simp [deleteRole, hrole], ?_⟩
  rw [hstate]
  simp [checkRole, verifyToken, htok, hexp, huser, hmem]

/-- A server where user 7 holds role 3 and owns the live token `"tok"`,
used to exercise the C8 theorem at a concrete input. -/
def srvRole : InMemoryServer :=
  { cfg := { tokenExpireSec := 60 }
    users := [(7, { id := 7, name := "ann", secret := "pw", roles := some [3] })]
    uname := [("ann", 7)]
    roles := [(3, { id := 3, name := "scanner" })]
    rname := [("scanner", 3)]
    tokens := [("tok", { value := "tok", user := 7, expires := 100 })]
    nextUser := 8
    nextRole := 4
    tokenQ := [{ serverEpoch := 1,
                 tokens := [{ value := "tok", user := 7, expires := 100 }] }] }

/-- Witness for C8 on `srvRole`: after deleting role 3, `CheckRole` for role
3 with user 7's valid token still answers `true`. -/
theorem c8_deleted_role_membership_persists_witness :
    (deleteRole srvRole 3).1 = .ok () ∧
    (checkRole (deleteRole srvRole 3).2 "tok" 3 0).1 = .ok true :=
  c8_deleted_role_membership_persists srvRole 3 "tok" 0
    { value := "tok", user := 7, expires := 100 }
    { id := 7, name := "ann", secret := "pw", roles := some [3] }
    { id := 3, name := "scanner" }
    (by decide) (by decide) (by decide) (by decide) (by decide)

/-! ### C1: pruning -/

/-- The condition under which the `pruneTokens` loop keeps walking: the
bucket is strictly older than the code's eviction threshold. -/
def expirableB (ep expire : Int) (b : TokenQueue) : Bool :=
  decide (expire < ep - b.serverEpoch)

theorem pruneLoop_eq (ep expire : Int) (q : List TokenQueue)
    (tokens : List (TokenValue × Token)) :
    pruneLoop ep expire q tokens =
      (q.dropWhile (expirableB ep expire),
       (q.takeWhile (expirableB ep expire)).foldl
         (fun m b => evictTokens m b.tokens) tokens) := by
  induction q generalizing tokens with
  | nil => simp [pruneLoop]
  | cons b rest ih =>
    by_cases h : ep - b.serverEpoch ≤ expire
    · have hb : expirableB ep expire b = false := by
        simp only [expirableB, decide_eq_false_iff_not]; omega
      simp [pruneLoop, h, List.dropWhile_cons, List.takeWhile_cons, hb]
    · have hb : expirableB ep expire b = true := by
        simp only [expirableB, decide_eq_true_eq]; omega
      simp [pruneLoop, h, List.dropWhile_cons, List.takeWhile_cons, hb, ih]

theorem lookupA_evictTokens (m : List (TokenValue × Token)) (ts : List Token)
    (v : TokenValue) :
    lookupA (evictTokens m ts) v =
      if ts.any (fun t => t.value = v) then none else lookupA m v := by
  induction ts generalizing m with
  | nil => simp [evictTokens]
  | cons t ts ih =>
    have hstep : evictTokens m (t :: ts) = evictTokens (eraseA m t.value) ts := rfl
    rw [hstep, ih]
    by_cases hv : v = t.value
    · subst hv
      simp [lookupA_eraseA]
    · have hv' : ¬ t.value = v := fun h => hv h.symm
      simp [lookupA_eraseA, hv, hv']

theorem lookupA_evictFold (bs : List TokenQueue)
    (tokens : List (TokenValue × Token)) (v : TokenValue) :
    lookupA (bs.foldl (fun m b => evictTokens m b.tokens) tokens) v =
      if bs.any (fun b => b.tokens.any (fun t => t.value = v)) then none
      else lookupA tokens v := by
  induction bs generalizing tokens with
  | nil => simp
  | cons b bs ih =>
    rw [List.foldl_cons, ih, lookupA_evictTokens]
    by_cases h : b.tokens.any (fun t => t.value = v) = true
    · simp only [List.any_cons, h, Bool.true_or, if_true]
      split <;> rfl
    · simp only [List.any_cons, h, if_false, Bool.false_or]
      simp [h]

theorem mem_dropWhile_expirable_iff (ep expire : Int) (q : List TokenQueue)
    (hsort : q.Pairwise (fun a b => a.serverEpoch < b.serverEpoch))
    (b : TokenQueue) (hb : b ∈ q) :
    b ∈ q.dropWhile (expirableB ep expire) ↔ ep - b.serverEpoch ≤ expire := by
  induction q with
  | nil => cases hb
  | cons a rest ih =>
    rcases List.pairwise_cons.mp hsort with ⟨ha, hrest⟩
    by_cases hA : expirableB ep expire a = true
    · rw [List.dropWhile_cons_of_pos hA]
      rcases List.mem_cons.mp hb with rfl | hb'
      · constructor
        · intro hmem
          exact absurd (ha _ ((List.dropWhile_sublist _).subset hmem))
            (lt_irrefl _)
        · intro hle
          exfalso
          simp [expirableB] at hA
          omega
      · exact ih hrest hb'
    · rw [List.dropWhile_cons_of_neg hA]
      have hAle : ep - a.serverEpoch ≤ expire := by
        simp [expirableB] at hA
        omega
      rcases List.mem_cons.mp hb with rfl | hb'
      · simpa using hAle
      · constructor
        · intro _
          have := ha b hb'
          omega
        · intro _
          exact List.mem_cons_of_mem _ hb'

/-- C1 (amended, proved): with the code's eviction threshold
`expire = TokenExpireSec/3600 + 1` (truncating integer division, i.e.
floor(TTL/window) + 1, not the spec's ceil(TTL/window)): for a bucket queue
strictly ordered by increasing epoch, `pruneTokens` performs a prefix trim —
the surviving queue is exactly the original with the leading run of buckets
satisfying `currentEpoch - bucket.epoch > expire` dropped; a bucket survives
iff `currentEpoch - bucket.epoch ≤ expire`; the lookup table afterwards
binds a value iff it was bound before and is not referenced by an evicted
bucket (so every token of an evicted bucket is removed); and deleting an
absent key from a lookup table is a no-op. -/
theorem c1_prune_exact_prefix_eviction (s : InMemoryServer) (elapsedSec : Nat)
    (hsort : s.tokenQ.Pairwise (fun a b => a.serverEpoch < b.serverEpoch)) :
    (pruneTokens s elapsedSec).tokenQ =
      s.tokenQ.dropWhile
        (expirableB (currentEpochInHour elapsedSec)
          (Int.tdiv s.cfg.tokenExpireSec 3600 + 1)) ∧
    (∀ b ∈ s.tokenQ,
      b ∈ (pruneTokens s elapsedSec).tokenQ ↔
        currentEpochInHour elapsedSec - b.serverEpoch ≤
          Int.tdiv s.cfg.tokenExpireSec 3600 + 1) ∧
    (∀ v, lookupA (pruneTokens s elapsedSec).tokens v =
      if (s.tokenQ.takeWhile
            (expirableB (currentEpochInHour elapsedSec)
              (Int.tdiv s.cfg.tokenExpireSec 3600 + 1))).any
          (fun b => b.tokens.any (fun t => t.value = v))
      then none else lookupA s.tokens v) ∧
    (∀ (m : List (TokenValue × Token)) (k : TokenValue),
      lookupA m k = none → eraseA m k = m) := by
  have hpt : pruneTokens s elapsedSec =
      { s with
          tokenQ := s.tokenQ.dropWhile
            (expirableB (currentEpochInHour elapsedSec)
              (Int.tdiv s.cfg.tokenExpireSec 3600 + 1))
          tokens := (s.tokenQ.takeWhile
              (expirableB (currentEpochInHour elapsedSec)
                (Int.tdiv s.cfg.tokenExpireSec 3600 + 1))).foldl
            (fun m b => evictTokens m b.tokens) s.tokens } := by
    simp only [pruneTokens, pruneLoop_eq]
  refine ⟨by rw [hpt], ?_, ?_, ?_⟩
  · intro b hb
    rw [hpt]
    exact mem_dropWhile_expirable_iff _ _ _ hsort b hb
  · intro v
    rw [hpt]
    exact lookupA_evictFold _ _ _
  · intro m k hk
    exact eraseA_of_lookupA_none m k hk

/-- The token referenced by the single epoch-1 bucket of `c1srv`. -/
def c1tok : Token := { value := "tok", user := 1, expires := 3600 }

/-- A server with TTL 3600 s whose bucket queue holds one epoch-1 bucket
referencing the token `"tok"`. -/
def c1srv : InMemoryServer :=
  { cfg := { tokenExpireSec := 3600 }
    users := []
    uname := []
    roles := []
    rname := []
    tokens := [("tok", c1tok)]
    nextUser := 1
    nextRole := 1
    tokenQ := [{ serverEpoch := 1, tokens := [c1tok] }] }

/-- C1 counterexample: with TTL = 3600 s (one whole window) and elapsed time
10800 s the code's epoch is 3, so the epoch-1 bucket satisfies the spec's
eviction condition `currentEpoch - bucket.epoch = 2 > ceil(TTL/3600) = 1`,
yet `pruneTokens` leaves the whole server — bucket queue and token lookup
table — unchanged, because the code's threshold is
`TokenExpireSec/3600 + 1 = 2`, not `ceil(TTL/3600) = 1`. -/
theorem c1_counterexample :
    specExpirable (currentEpochInHour 10800) 1 3600 ∧
    pruneTokens c1srv 10800 = c1srv ∧
    lookupA (pruneTokens c1srv 10800).tokens "tok" = some c1tok := by decide

/-- Witness for C1 at a concrete sorted queue: a server with TTL 7200 s,
buckets at epochs 1 and 3, at code epoch 6 (elapsed 21599 s): threshold is
3, the epoch-1 bucket (distance 5) is evicted together with its token, the
epoch-3 bucket (distance 3) survives with its token still resident. -/
theorem c1_prune_exact_prefix_eviction_witness :
    ({ serverEpoch := 1, tokens := [c1tok] } : TokenQueue) ∉
      (pruneTokens
        { cfg := { tokenExpireSec := 7200 }
          users := []
          uname := []
          roles := []
          rname := []
          tokens := [("tok", c1tok), ("tk2", { value := "tk2", user := 1, expires := 99999 })]
          nextUser := 1
          nextRole := 1
          tokenQ := [{ serverEpoch := 1, tokens := [c1tok] },
                     { serverEpoch := 3,
                       tokens := [{ value := "tk2", user := 1, expires := 99999 }] }] }
        21599).tokenQ ∧
    lookupA (pruneTokens
        { cfg := { tokenExpireSec := 7200 }
          users := []
          uname := []
          roles := []
          rname := []
          tokens := [("tok", c1tok), ("tk2", { value := "tk2", user := 1, expires := 99999 })]
          nextUser := 1
          nextRole := 1
          tokenQ := [{ serverEpoch := 1, tokens := [c1tok] },
                     { serverEpoch := 3,
                       tokens := [{ value := "tk2", user := 1, expires := 99999 }] }] }
        21599).tokens "tok" = none := by
  have h := c1_prune_exact_prefix_eviction
    { cfg := { tokenExpireSec := 7200 }
      users := []
      uname := []
      roles := []
      rname := []
      tokens := [("tok", c1tok), ("tk2", { value := "tk2", user := 1, expires := 99999 })]
      nextUser := 1
      nextRole := 1
      tokenQ := [{ serverEpoch := 1, tokens := [c1tok] },
                 { serverEpoch := 3,
                   tokens := [{ value := "tk2", user := 1, expires := 99999 }] }] }
    21599 (by decide)
  refine ⟨fun hmem => ?_, ?_⟩
  · have := (h.2.1 _ (by decide)).mp hmem
    revert this
    decide
  · rw [h.2.2.1 "tok"]
    decide

/-! ### C9: identifier assignment across operation sequences -/

/-- The four Identity-Store mutations of the public API, for reasoning about
arbitrary interleaved operation sequences. -/
inductive AuthOp where
  | createUserOp (name password : String)
  | deleteUserOp (id : Int)
  | createRoleOp (name : String)
  | deleteRoleOp (id : Int)
deriving DecidableEq, Repr

/-- Apply one operation, keeping only the resulting state. -/
def applyOp (s : InMemoryServer) : AuthOp → InMemoryServer
  | .createUserOp n p => (createUser s n p).2
  | .deleteUserOp i => (deleteUser s i).2
  | .createRoleOp n => (createRole s n).2
  | .deleteRoleOp i => (deleteRole s i).2

/-- Run a sequence of operations from a state. -/
def runOps (s : InMemoryServer) : List AuthOp → InMemoryServer
  | [] => s
  | op :: rest => runOps (applyOp s op) rest

/-- The role ids handed out by the successful `CreateRole` calls of a
sequence, in order. -/
def assignedRoleIds (s : InMemoryServer) : List AuthOp → List Int
  | [] => []
  | op :: rest =>
    match op with
    | .createRoleOp n =>
      match (createRole s n).1 with
      | .ok id => id :: assignedRoleIds (applyOp s op) rest
      | .error _ => assignedRoleIds (applyOp s op) rest
    | _ => assignedRoleIds (applyOp s op) rest

/-- The user ids handed out by the successful `CreateUser` calls of a
sequence, in order. -/
def assignedUserIds (s : InMemoryServer) : List AuthOp → List Int
  | [] => []
  | op :: rest =>
    match op with
    | .createUserOp n p =>
      match (createUser s n p).1 with
      | .ok id => id :: assignedUserIds (applyOp s op) rest
      | .error _ => assignedUserIds (applyOp s op) rest
    | _ => assignedUserIds (applyOp s op) rest

/-- The consecutive integers `start, start+1, ..., start+n-1`. -/
def consecFrom (start : Int) : Nat → List Int
  | 0 => []
  | n + 1 => start :: consecFrom (start + 1) n

/-- The sequence of ids an `int32` increment-with-wraparound counter hands
out, starting from `start`, over `n` successful creations. -/
def wrapSeq (start : Int) : Nat → List Int
  | 0 => []
  | n + 1 => start :: wrapSeq (wrapInt 32 (start + 1)) n

/-- The value of an `int32` increment-with-wraparound counter after `n`
successful creations starting from `start`. -/
def iterWrap32 (start : Int) : Nat → Int
  | 0 => start
  | n + 1 => iterWrap32 (wrapInt 32 (start + 1)) n

theorem wrapInt32_eq_self (y : Int) (h1 : -2147483648 ≤ y)
    (h2 : y < 2147483648) : wrapInt 32 y = y := by
  have e1 : (2 : Int) ^ (32 - 1) = 2147483648 := by norm_num
  have e2 : (2 : Int) ^ 32 = 4294967296 := by norm_num
  unfold wrapInt
  rw [e1, e2]
  omega

theorem wrapInt32_bounds (y : Int) :
    -2147483648 ≤ wrapInt 32 y ∧ wrapInt 32 y < 2147483648 := by
  have e1 : (2 : Int) ^ (32 - 1) = 2147483648 := by norm_num
  have e2 : (2 : Int) ^ 32 = 4294967296 := by norm_num
  unfold wrapInt
  rw [e1, e2]
  omega

theorem wrapInt64_eq_self (y : Int) (h1 : -9223372036854775808 ≤ y)
    (h2 : y < 9223372036854775808) : wrapInt 64 y = y := by
  have e1 : (2 : Int) ^ (64 - 1) = 9223372036854775808 := by norm_num
  have e2 : (2 : Int) ^ 64 = 18446744073709551616 := by norm_num
  unfold wrapInt
  rw [e1, e2]
  omega

theorem wrapInt64_bounds (y : Int) :
    -9223372036854775808 ≤ wrapInt 64 y ∧
      wrapInt 64 y < 9223372036854775808 := by
  have e1 : (2 : Int) ^ (64 - 1) = 9223372036854775808 := by norm_num
  have e2 : (2 : Int) ^ 64 = 18446744073709551616 := by norm_num
  unfold wrapInt
  rw [e1, e2]
  omega

theorem nextRole_createUser (s : InMemoryServer) (n p : String) :
    (createUser s n p).2.nextRole = s.nextRole := by
  cases h : lookupA s.uname n <;> simp [createUser, h]

theorem nextRole_deleteUser (s : InMemoryServer) (i : Int) :
    (deleteUser s i).2.nextRole = s.nextRole := by
  cases h : lookupA s.users i <;> simp [deleteUser, h]

theorem nextRole_deleteRole (s : InMemoryServer) (i : Int) :
    (deleteRole s i).2.nextRole = s.nextRole := by
  cases h : lookupA s.roles i <;> simp [deleteRole, h]

theorem nextUser_createRole (s : InMemoryServer) (n : String) :
    (createRole s n).2.nextUser = s.nextUser := by
  cases h : lookupA s.rname n <;> simp [createRole, h]

theorem nextUser_deleteUser (s : InMemoryServer) (i : Int) :
    (deleteUser s i).2.nextUser = s.nextUser := by
  cases h : lookupA s.users i <;> simp [deleteUser, h]

theorem nextUser_deleteRole (s : InMemoryServer) (i : Int) :
    (deleteRole s i).2.nextUser = s.nextUser := by
  cases h : lookupA s.roles i <;> simp [deleteRole, h]

theorem mem_consecFrom_lb (n : Nat) (start a : Int)
    (h : a ∈ consecFrom start n) : start ≤ a := by
  induction n generalizing start with
  | zero => simp [consecFrom] at h
  | succ n ih =>
    rcases List.mem_cons.mp h with rfl | h'
    · exact le_refl _
    · have := ih (start + 1) h'
      omega

theorem mem_consecFrom (n : Nat) (start a : Int) (h1 : start ≤ a)
    (h2 : a < start + n) : a ∈ consecFrom start n := by
  induction n generalizing start with
  | zero => omega
  | succ n ih =>
    by_cases h : a = start
    · exact h ▸ List.mem_cons_self _ _
    · exact List.mem_cons_of_mem _ (ih (start + 1) (by omega) (by omega))

theorem consecFrom_pairwise (n : Nat) (start : Int) :
    (consecFrom start n).Pairwise (· < ·) := by
  induction n generalizing start with
  | zero => simp [consecFrom]
  | succ n ih =>
    refine List.pairwise_cons.mpr ⟨?_, ih (start + 1)⟩
    intro a ha
    have := mem_consecFrom_lb n (start + 1) a ha
    omega

theorem consecFrom_nodup (n : Nat) (start : Int) :
    (consecFrom start n).Nodup :=
  (consecFrom_pairwise n start).imp (fun h => ne_of_lt h)

theorem assignedRoleIds_consec (ops : List AuthOp) :
    ∀ s : InMemoryServer, -2147483648 ≤ s.nextRole →
    s.nextRole + (assignedRoleIds s ops).length ≤ 2147483648 →
    assignedRoleIds s ops =
      consecFrom s.nextRole (assignedRoleIds s ops).length := by
  induction ops with
  | nil => intro s _ _; simp [assignedRoleIds, consecFrom]
  | cons op rest ih =>
    intro s h1 h2
    cases op with
    | createUserOp n p =>
      have hl : assignedRoleIds s (.createUserOp n p :: rest) =
          assignedRoleIds (applyOp s (.createUserOp n p)) rest := rfl
      have hn : (applyOp s (.createUserOp n p)).nextRole = s.nextRole :=
        nextRole_createUser s n p
      rw [hl] at h2 ⊢
      rw [← hn] at h2 ⊢
      exact ih _ (hn ▸ h1) h2
    | deleteUserOp i =>
      have hl : assignedRoleIds s (.deleteUserOp i :: rest) =
          assignedRoleIds (applyOp s (.deleteUserOp i)) rest := rfl
      have hn : (applyOp s (.deleteUserOp i)).nextRole = s.nextRole :=
        nextRole_deleteUser s i
      rw [hl] at h2 ⊢
      rw [← hn] at h2 ⊢
      exact ih _ (hn ▸ h1) h2
    | deleteRoleOp i =>
      have hl : assignedRoleIds s (.deleteRoleOp i :: rest) =
          assignedRoleIds (applyOp s (.deleteRoleOp i)) rest := rfl
      have hn : (applyOp s (.deleteRoleOp i)).nextRole = s.nextRole :=
        nextRole_deleteRole s i
      rw [hl] at h2 ⊢
      rw [← hn] at h2 ⊢
      exact ih _ (hn ▸ h1) h2
    | createRoleOp n =>
      cases hlk : lookupA s.rname n with
      | some r =>
        have hfail : (createRole s n).1 = .error .roleExists := by
          simp [createRole, hlk]
        have happ : applyOp s (.createRoleOp n) = s := by
          simp [applyOp, createRole, hlk]
        have hl : assignedRoleIds s (.createRoleOp n :: rest) =
            assignedRoleIds (applyOp s (.createRoleOp n)) rest := by
          simp [assignedRoleIds, hfail]
        rw [hl, happ] at h2 ⊢
        exact ih s h1 h2
      | none =>
        have hok : (createRole s n).1 = .ok s.nextRole := by
          simp [createRole, hlk]
        have hnr : (applyOp s (.createRoleOp n)).nextRole =
            wrapInt 32 (s.nextRole + 1) := by
          simp [applyOp, createRole, hlk]
        have hl : assignedRoleIds s (.createRoleOp n :: rest) =
            s.nextRole :: assignedRoleIds (applyOp s (.createRoleOp n)) rest := by
          simp [assignedRoleIds, hok]
        rw [hl] at h2 ⊢
        rw [List.length_cons] at h2 ⊢
        have hA : -2147483648 ≤ s.nextRole + 1 := by omega
        have hB : (assignedRoleIds (applyOp s (.createRoleOp n)) rest).length ≠ 0 →
            s.nextRole + 1 < 2147483648 ∧
            s.nextRole + 1 +
              ((assignedRoleIds (applyOp s (.createRoleOp n)) rest).length : Int) ≤
              2147483648 := by
          intro hz
          constructor <;> omega
        simp only [consecFrom]
        congr 1
        by_cases hz : (assignedRoleIds (applyOp s (.createRoleOp n)) rest).length = 0
        · rw [List.eq_nil_of_length_eq_zero hz]
          simp [consecFrom]
        · have hb : (applyOp s (.createRoleOp n)).nextRole = s.nextRole + 1 := by
            rw [hnr]
            exact wrapInt32_eq_self _ hA (hB hz).1
          have hres := ih (applyOp s (.createRoleOp n))
            (by rw [hb]; exact hA.trans (by omega)) (by rw [hb]; exact (hB hz).2)
          conv_lhs => rw [hres]
          rw [hb]

theorem assignedUserIds_consec (ops : List AuthOp) :
    ∀ s : InMemoryServer, -9223372036854775808 ≤ s.nextUser →
    s.nextUser + (assignedUserIds s ops).length ≤ 9223372036854775808 →
    assignedUserIds s ops =
      consecFrom s.nextUser (assignedUserIds s ops).length := by
  induction ops with
  | nil => intro s _ _; simp [assignedUserIds, consecFrom]
  | cons op rest ih =>
    intro s h1 h2
    cases op with
    | createRoleOp n =>
      have hl : assignedUserIds s (.createRoleOp n :: rest) =
          assignedUserIds (applyOp s (.createRoleOp n)) rest := rfl
      have hn : (applyOp s (.createRoleOp n)).nextUser = s.nextUser :=
        nextUser_createRole s n
      rw [hl] at h2 ⊢
      rw [← hn] at h2 ⊢
      exact ih _ (hn ▸ h1) h2
    | deleteUserOp i =>
      have hl : assignedUserIds s (.deleteUserOp i :: rest) =
          assignedUserIds (applyOp s (.deleteUserOp i)) rest := rfl
      have hn : (applyOp s (.deleteUserOp i)).nextUser = s.nextUser :=
        nextUser_deleteUser s i
      rw [hl] at h2 ⊢
      rw [← hn] at h2 ⊢
      exact ih _ (hn ▸ h1) h2
    | deleteRoleOp i =>
      have hl : assignedUserIds s (.deleteRoleOp i :: rest) =
          assignedUserIds (applyOp s (.deleteRoleOp i)) rest := rfl
      have hn : (applyOp s (.deleteRoleOp i)).nextUser = s.nextUser :=
        nextUser_deleteRole s i
      rw [hl] at h2 ⊢
      rw [← hn] at h2 ⊢
      exact ih _ (hn ▸ h1) h2
    | createUserOp n p =>
      cases hlk : lookupA s.uname n with
      | some r =>
        have hfail : (createUser s n p).1 = .error .userExists := by
          simp [createUser, hlk]
        have happ : applyOp s (.createUserOp n p) = s := by
          simp [applyOp, createUser, hlk]
        have hl : assignedUserIds s (.createUserOp n p :: rest) =
            assignedUserIds (applyOp s (.createUserOp n p)) rest := by
          simp [assignedUserIds, hfail]
        rw [hl, happ] at h2 ⊢
        exact ih s h1 h2
      | none =>
        have hok : (createUser s n p).1 = .ok s.nextUser := by
          simp [createUser, hlk]
        have hnr : (applyOp s (.createUserOp n p)).nextUser =
            wrapInt 64 (s.nextUser + 1) := by
          simp [applyOp, createUser, hlk]
        have hl : assignedUserIds s (.createUserOp n p :: rest) =
            s.nextUser :: assignedUserIds (applyOp s (.createUserOp n p)) rest := by
          simp [assignedUserIds, hok]
        rw [hl] at h2 ⊢
        rw [List.length_cons] at h2 ⊢
        have hA : -9223372036854775808 ≤ s.nextUser + 1 := by omega
        have hB : (assignedUserIds (applyOp s (.createUserOp n p)) rest).length ≠ 0 →
            s.nextUser + 1 < 9223372036854775808 ∧
            s.nextUser + 1 +
              ((assignedUserIds (applyOp s (.createUserOp n p)) rest).length : Int) ≤
              9223372036854775808 := by
          intro hz
          constructor <;> omega
        simp only [consecFrom]
        congr 1
        by_cases hz : (assignedUserIds (applyOp s (.createUserOp n p)) rest).length = 0
        · rw [List.eq_nil_of_length_eq_zero hz]
          simp [consecFrom]
        · have hb : (applyOp s (.createUserOp n p)).nextUser = s.nextUser + 1 := by
            rw [hnr]
            exact wrapInt64_eq_self _ hA (hB hz).1
          have hres := ih (applyOp s (.createUserOp n p))
            (by rw [hb]; exact hA.trans (by omega)) (by rw [hb]; exact (hB hz).2)
          conv_lhs => rw [hres]
          rw [hb]

/-- C9 (amended, proved): from a freshly constructed server, along any
sequence of CreateUser/DeleteUser/CreateRole/DeleteRole operations, the role
ids handed out by successful creations form the consecutive sequence
1, 2, ..., k — strictly increasing, starting at 1, no id handed out twice,
hence never reassigned after a deletion — provided at most 2^31 − 1 roles
are created, and likewise user ids provided at most 2^63 − 1 users are
created.  The bound is forced by the `int32`/`int64` counters, whose
two's-complement wraparound breaks monotonicity beyond it. -/
theorem c9_ids_consecutive_bounded (ops : List AuthOp)
    (cfg : InMemoryServerConfig) (s0 : InMemoryServer)
    (h0 : newInMemoryServer (some cfg) = .ok s0)
    (hr : (assignedRoleIds s0 ops).length ≤ 2147483647)
    (hu : (assignedUserIds s0 ops).length ≤ 9223372036854775807) :
    assignedRoleIds s0 ops =
      consecFrom 1 (assignedRoleIds s0 ops).length ∧
    assignedUserIds s0 ops =
      consecFrom 1 (assignedUserIds s0 ops).length ∧
    (assignedRoleIds s0 ops).Pairwise (· < ·) ∧
    (assignedUserIds s0 ops).Pairwise (· < ·) ∧
    (assignedRoleIds s0 ops).Nodup ∧
    (assignedUserIds s0 ops).Nodup := by
  have hcfg : ¬ cfg.tokenExpireSec < 60 := by
    intro h
    simp [newInMemoryServer, h] at h0
  have hs0 : ({ cfg := cfg, users := [], uname := [], roles := [],
                rname := [], tokens := [], nextUser := 1, nextRole := 1,
                tokenQ := [] } : InMemoryServer) = s0 := by
    simpa [newInMemoryServer, hcfg] using h0
  have hnr : s0.nextRole = 1 := by rw [← hs0]
  have hnu : s0.nextUser = 1 := by rw [← hs0]
  have hR := assignedRoleIds_consec ops s0 (by rw [hnr]; norm_num)
    (by rw [hnr]; omega)
  have hU := assignedUserIds_consec ops s0 (by rw [hnu]; norm_num)
    (by rw [hnu]; omega)
  rw [hnr] at hR
  rw [hnu] at hU
  refine ⟨hR, hU, ?_, ?_, ?_, ?_⟩
  · rw [hR]; exact consecFrom_pairwise _ _
  · rw [hU]; exact consecFrom_pairwise _ _
  · rw [hR]; exact consecFrom_nodup _ _
  · rw [hU]; exact consecFrom_nodup _ _

/-- A short interleaved sequence: create a role, delete it, create another
role under the now-free name, create a user. -/
def c9smallOps : List AuthOp :=
  [.createRoleOp "a", .deleteRoleOp 1, .createRoleOp "a", .createUserOp "u" "p"]

/-- Witness for C9 (amended) at a concrete trace: even though role id 1 is
deleted and its name reused, the next role gets id 2 — ids stay consecutive
from 1, strictly increasing, and are never reassigned. -/
theorem c9_ids_consecutive_bounded_witness :
    assignedRoleIds srv60 c9smallOps =
      consecFrom 1 (assignedRoleIds srv60 c9smallOps).length ∧
    (assignedRoleIds srv60 c9smallOps).Pairwise (· < ·) ∧
    assignedRoleIds srv60 c9smallOps = [1, 2] ∧
    assignedUserIds srv60 c9smallOps = [1] :=
  have h := c9_ids_consecutive_bounded c9smallOps { tokenExpireSec := 60 }
    srv60 (by decide) (by decide) (by decide)
  ⟨h.1, h.2.2.1, by decide, by decide⟩

/-- `"a"` repeated `n` times: an injective supply of fresh role names. -/
def cName (n : Nat) : String := String.mk (List.replicate n 'a')

theorem cName_injective : Function.Injective cName := by
  intro a b h
  have h2 := congrArg (fun s : String => s.data.length) h
  simpa [cName] using h2

/-- 2^31 `CreateRole` operations with pairwise-distinct fresh names. -/
def c9ops : List AuthOp :=
  (List.range 2147483648).map (fun i => AuthOp.createRoleOp (cName i))

theorem createRole_run_fresh (names : List String) :
    ∀ s : InMemoryServer,
    (∀ nm ∈ names, lookupA s.rname nm = none) → names.Nodup →
    assignedRoleIds s (names.map AuthOp.createRoleOp) =
      wrapSeq s.nextRole names.length ∧
    (runOps s (names.map AuthOp.createRoleOp)).nextRole =
      iterWrap32 s.nextRole names.length := by
  induction names with
  | nil => intro s _ _; exact ⟨rfl, rfl⟩
  | cons nm names ih =>
    intro s hfresh hnd
    have hlk : lookupA s.rname nm = none := hfresh nm (List.mem_cons_self _ _)
    have hok : (createRole s nm).1 = .ok s.nextRole := by simp [createRole, hlk]
    have hnrw : (applyOp s (.createRoleOp nm)).nextRole =
        wrapInt 32 (s.nextRole + 1) := by
      simp [applyOp, createRole, hlk]
    have hrn : (applyOp s (.createRoleOp nm)).rname =
        insertA s.rname nm s.nextRole := by
      simp [applyOp, createRole, hlk]
    have hnm : nm ∉ names := (List.nodup_cons.mp hnd).1
    have hfresh' : ∀ nm' ∈ names,
        lookupA (applyOp s (.createRoleOp nm)).rname nm' = none := by
      intro nm' hm
      have hne : ¬ nm' = nm := fun hcontra => hnm (hcontra ▸ hm)
      rw [hrn, lookupA_insertA, if_neg hne]
      exact hfresh nm' (List.mem_cons_of_mem _ hm)
    have ihres := ih (applyOp s (.createRoleOp nm)) hfresh'
      (List.nodup_cons.mp hnd).2
    constructor
    · have hl : assignedRoleIds s ((nm :: names).map AuthOp.createRoleOp) =
          s.nextRole ::
            assignedRoleIds (applyOp s (.createRoleOp nm))
              (names.map AuthOp.createRoleOp) := by
        simp [assignedRoleIds, hok]
      rw [hl, ihres.1, hnrw]
      simp [wrapSeq]
    · have hr : runOps s ((nm :: names).map AuthOp.createRoleOp) =
          runOps (applyOp s (.createRoleOp nm))
            (names.map AuthOp.createRoleOp) := rfl
      rw [hr, ihres.2, hnrw]
      simp [iterWrap32]

theorem wrapSeq_eq_consecFrom (n : Nat) :
    ∀ start : Int, -2147483648 ≤ start → start + n ≤ 2147483648 →
    wrapSeq start n = consecFrom start n := by
  induction n with
  | zero => intro start _ _; rfl
  | succ n ih =>
    intro start h1 h2
    simp only [wrapSeq, consecFrom]
    congr 1
    by_cases hz : n = 0
    · subst hz; rfl
    · have hw : wrapInt 32 (start + 1) = start + 1 :=
        wrapInt32_eq_self _ (by omega) (by omega)
      rw [hw]
      exact ih (start + 1) (by omega) (by omega)

theorem iterWrap32_eq (n : Nat) :
    ∀ start : Int, -2147483648 ≤ start → start + n ≤ 2147483648 → n ≠ 0 →
    iterWrap32 start n = wrapInt 32 (start + n) := by
  induction n with
  | zero => intro start _ _ h; exact absurd rfl h
  | succ n ih =>
    intro start h1 h2 _
    by_cases hz : n = 0
    · subst hz
      simp [iterWrap32]
    · have hw : wrapInt 32 (start + 1) = start + 1 :=
        wrapInt32_eq_self _ (by omega) (by omega)
      have hres := ih (start + 1) (by omega) (by omega) hz
      simp only [iterWrap32]
      rw [hw, hres]
      congr 1
      push_cast
      ring

theorem wrapSeq_append (m : Nat) :
    ∀ (start : Int) (k : Nat),
    wrapSeq start (m + k) = wrapSeq start m ++ wrapSeq (iterWrap32 start m) k := by
  induction m with
  | zero => intro start k; simp [wrapSeq, iterWrap32]
  | succ m ih =>
    intro start k
    have h1 : m + 1 + k = (m + k) + 1 := by omega
    rw [h1]
    simp only [wrapSeq]
    rw [ih]
    simp [iterWrap32]

theorem wrapInt32_top : wrapInt 32 (2147483648 : Int) = -2147483648 := by
  have e1 : (2 : Int) ^ (32 - 1) = 2147483648 := by norm_num
  have e2 : (2 : Int) ^ 32 = 4294967296 := by norm_num
  unfold wrapInt
  rw [e1, e2]
  omega

/-- C9 counterexample: 2^31 successive `CreateRole` calls with distinct
fresh names on a fresh server.  The `int32` role counter wraps around: the
2^31-th successful creation returns id −2^31 right after id 2^31 − 1 was
handed out, so the sequence of assigned role ids is not strictly
increasing — the claim fails for unboundedly long operation sequences. -/
theorem c9_counterexample :
    ¬ (assignedRoleIds srv60 c9ops).Pairwise (· < ·) := by
  intro hpw
  have hnames : c9ops =
      ((List.range 2147483648).map cName).map AuthOp.createRoleOp := by
    simp [c9ops, List.map_map, Function.comp]
  have hnd : ((List.range 2147483648).map cName).Nodup :=
    (List.nodup_range _).map cName_injective
  have hfresh : ∀ nm ∈ (List.range 2147483648).map cName,
      lookupA srv60.rname nm = none := fun nm _ => rfl
  have hrun := createRole_run_fresh ((List.range 2147483648).map cName)
    srv60 hfresh hnd
  have hone : srv60.nextRole = 1 := rfl
  have hlen : ((List.range 2147483648).map cName).length = 2147483648 := by
    simp
  have hseq : assignedRoleIds srv60 c9ops = wrapSeq 1 2147483648 := by
    rw [hnames, hrun.1, hone, hlen]
  have hsplitNat : (2147483648 : Nat) = 2147483647 + 1 := by norm_num
  have hsplit : wrapSeq (1 : Int) 2147483648 =
      wrapSeq 1 2147483647 ++ wrapSeq (iterWrap32 1 2147483647) 1 := by
    rw [hsplitNat, wrapSeq_append]
  have hfirst : wrapSeq (1 : Int) 2147483647 = consecFrom 1 2147483647 :=
    wrapSeq_eq_consecFrom _ 1 (by norm_num) (by norm_num)
  have hiter : iterWrap32 (1 : Int) 2147483647 = -2147483648 := by
    rw [iterWrap32_eq _ 1 (by norm_num) (by norm_num) (by norm_num)]
    have harg : (1 : Int) + ((2147483647 : Nat) : Int) = 2147483648 := by
      norm_num
    rw [harg, wrapInt32_top]
  have hlast : wrapSeq (iterWrap32 (1 : Int) 2147483647) 1 = [-2147483648] := by
    rw [hiter]
    rfl
  rw [hseq, hsplit, hfirst, hlast] at hpw
  have hmem : (2147483647 : Int) ∈ consecFrom 1 2147483647 :=
    mem_consecFrom _ _ _ (by norm_num) (by norm_num)
  have hlt := (List.pairwise_append.mp hpw).2.2 2147483647 hmem
    (-2147483648) (by simp)
  omega

end HsbcAuth
